import Mathlib

/-
  Verification development for the MacroCam food-logging system.

  The embedding covers:
  * JavaScript primitive semantics used by the sources: `parseInt`,
    `Number(...)` string-to-number coercion, `String(...)` coercion,
    truthiness, `trim`, `Math.round`, and `JSON.parse`.
  * The client screen state and its operations `saveMeal`,
    `estimateFromPhoto`, and the startup load effect (src/index.tsx).
  * The week screen aggregation `dateKey`, `lastNDays`, `perDay`,
    `weeklyTotals` (src/unnamed/part_001).  Date arithmetic is modelled
    for a fixed-offset time zone, under which the source's
    `x.setDate(d.getDate() - i)` manipulation subtracts exactly
    `i * 86400000` milliseconds from the reference instant; the UTC
    calendar of `toISOString` is modelled as the proleptic Gregorian
    calendar iterated day by day from the 1970-01-01 epoch.
  * The Express server handler for `POST /estimate` and `GET /health`,
    including `extractJson` (src/unnamed/part_000).  Network, file
    system and model-call effects are oracle parameters.

  JavaScript numbers are modelled as exact fractions (`JsRat`, a
  numerator over a power-of-ten denominator); `NaN` and the infinities
  are explicit constructors of `JsNum`.  This is exact for every value
  manipulated by the claims under study.
-/

namespace MacroCam

/-! ### Characters that the token rules make awkward to write literally -/

def lbrace : Char := Char.ofNat 123
def rbrace : Char := Char.ofNat 125
def backquote : Char := Char.ofNat 96

/-! ### JavaScript white space (the `\s` class used by `trim`, `parseInt`
    and `Number`): ASCII white space, NBSP, BOM, the Unicode space
    separators and the line separators. -/

def jsWsChars : List Char :=
  [' ', '\t', '\n', '\r', Char.ofNat 11, Char.ofNat 12,
   Char.ofNat 0xA0, Char.ofNat 0x1680,
   Char.ofNat 0x2000, Char.ofNat 0x2001, Char.ofNat 0x2002, Char.ofNat 0x2003,
   Char.ofNat 0x2004, Char.ofNat 0x2005, Char.ofNat 0x2006, Char.ofNat 0x2007,
   Char.ofNat 0x2008, Char.ofNat 0x2009, Char.ofNat 0x200A,
   Char.ofNat 0x2028, Char.ofNat 0x2029, Char.ofNat 0x202F,
   Char.ofNat 0x205F, Char.ofNat 0x3000, Char.ofNat 0xFEFF]

def isJsWs (c : Char) : Bool := jsWsChars.contains c

/-- `String.prototype.trim` on a character list: drop white space from
    both ends. -/
def jsTrimL (l : List Char) : List Char :=
  ((l.dropWhile isJsWs).reverse.dropWhile isJsWs).reverse

def jsTrim (s : String) : String := ⟨jsTrimL s.data⟩

/-- JavaScript `s1 || s2` for strings: the empty string is the only
    falsy string. -/
def jsOr (s dflt : String) : String := if s = "" then dflt else s

/-! ### `parseInt(s, 10)` -/

def digitsToNat (ds : List Char) : ℕ :=
  ds.foldl (fun a c => a * 10 + (c.toNat - 48)) 0

/-- `parseInt(s, 10)`: skip leading white space, read an optional sign,
    then a maximal run of decimal digits; `NaN` (here `none`) exactly
    when that run is empty.  Trailing garbage is ignored, as in JS. -/
def parseIntJS (s : String) : Option ℤ :=
  let l := s.data.dropWhile isJsWs
  let (neg, l) : Bool × List Char :=
    match l with
    | '-' :: rest => (true, rest)
    | '+' :: rest => (false, rest)
    | _ => (false, l)
  let ds := l.takeWhile Char.isDigit
  if ds.isEmpty then none
  else some (if neg then -(digitsToNat ds : ℤ) else (digitsToNat ds : ℤ))

/-! ### JavaScript numbers

    An exact fraction representation that the kernel can evaluate: a
    numerator and a positive denominator, not normalised.  Every
    denominator produced by the sources under study is a power of ten,
    so the representation is exact. -/

structure JsRat where
  num : ℤ
  den : ℤ
deriving DecidableEq

def pow10 (k : ℕ) : ℤ := 10 ^ k

def JsRat.val (q : JsRat) : ℚ := (q.num : ℚ) / (q.den : ℚ)

def JsRat.ofInt (n : ℤ) : JsRat := ⟨n, 1⟩

def JsRat.neg (q : JsRat) : JsRat := ⟨-q.num, q.den⟩

/-- Scale by `10 ^ e` for a signed `e`. -/
def JsRat.scale10 (q : JsRat) (eneg : Bool) (e : ℕ) : JsRat :=
  if eneg then ⟨q.num, q.den * pow10 e⟩ else ⟨q.num * pow10 e, q.den⟩

/-- A JavaScript number as far as the sources need it: `NaN`, signed
    infinity, or an exact finite value. -/
inductive JsNum where
  | nan
  | inf (negative : Bool)
  | fin (q : JsRat)
deriving DecidableEq

/-- `x || 0` on numbers: `NaN` and `0` are falsy. -/
def JsNum.orZero : JsNum → JsNum
  | .nan => .fin (.ofInt 0)
  | .fin q => if q.num = 0 then .fin (.ofInt 0) else .fin q
  | x => x

/-- The result of `Math.round(Number(x) || 0)`: never a fraction. -/
inductive JsRounded where
  | nan
  | inf (negative : Bool)
  | int (n : ℤ)
deriving DecidableEq

/-- `Math.round`: half-up (towards +∞) on finite values;
    `floor (q + 1/2)` is `(2 num + den) fdiv (2 den)`. -/
def JsNum.round : JsNum → JsRounded
  | .nan => .nan
  | .inf b => .inf b
  | .fin q => .int ((2 * q.num + q.den).fdiv (2 * q.den))

/-- `String(x)` for the rounded numbers the client turns back into
    input text. -/
def JsRounded.render : JsRounded → String
  | .nan => "NaN"
  | .inf true => "-Infinity"
  | .inf false => "Infinity"
  | .int n => toString n

/-- `Number(s)` for a string.  Empty/white space is `0`; `Infinity`
    with optional sign; `0x`/`0o`/`0b` integer literals (no sign);
    otherwise a fully-consumed decimal literal, else `NaN`. -/
def jsStringToNum (s : String) : JsNum :=
  let l := jsTrimL s.data
  if l.isEmpty then .fin (.ofInt 0)
  else
    let (neg, body) : Bool × List Char :=
      match l with
      | '-' :: rest => (true, rest)
      | '+' :: rest => (false, rest)
      | _ => (false, l)
    if body = "Infinity".data then .inf neg
    else
      -- radix prefixes: only without a sign
      let radix : Option (ℕ × List Char) :=
        match l with
        | '0' :: 'x' :: rest => some (16, rest)
        | '0' :: 'X' :: rest => some (16, rest)
        | '0' :: 'o' :: rest => some (8, rest)
        | '0' :: 'O' :: rest => some (8, rest)
        | '0' :: 'b' :: rest => some (2, rest)
        | '0' :: 'B' :: rest => some (2, rest)
        | _ => none
      match radix with
      | some (b, rest) =>
        if rest ≠ [] ∧ rest.all (fun c => hexDigitVal c < b) then
          .fin (.ofInt (rest.foldl (fun a c => a * b + hexDigitVal c) 0 : ℕ))
        else .nan
      | none =>
        -- decimal: digits [. digits] [e|E [sign] digits], at least one
        -- digit on one side of the point, fully consumed
        let ipart := body.takeWhile Char.isDigit
        let rest1 := body.dropWhile Char.isDigit
        let (fpart, rest2) : List Char × List Char :=
          match rest1 with
          | '.' :: r => (r.takeWhile Char.isDigit, r.dropWhile Char.isDigit)
          | _ => ([], rest1)
        let hadPoint : Bool := match rest1 with | '.' :: _ => true | _ => false
        if ipart.isEmpty ∧ (¬ hadPoint ∨ fpart.isEmpty) then .nan
        else
          let mant : JsRat :=
            ⟨digitsToNat ipart * pow10 fpart.length + digitsToNat fpart,
             pow10 fpart.length⟩
          match rest2 with
          | [] => .fin (if neg then mant.neg else mant)
          | 'e' :: r => expPart mant neg r
          | 'E' :: r => expPart mant neg r
          | _ => .nan
where
  hexDigitVal (c : Char) : ℕ :=
    if '0' ≤ c ∧ c ≤ '9' then c.toNat - 48
    else if 'a' ≤ c ∧ c ≤ 'f' then c.toNat - 87
    else if 'A' ≤ c ∧ c ≤ 'F' then c.toNat - 55
    else 99
  expPart (mant : JsRat) (neg : Bool) (r : List Char) : JsNum :=
    let (eneg, ds) : Bool × List Char :=
      match r with
      | '-' :: rest => (true, rest)
      | '+' :: rest => (false, rest)
      | _ => (false, r)
    if ds ≠ [] ∧ ds.all Char.isDigit then
      let mag := mant.scale10 eneg (digitsToNat ds)
      .fin (if neg then mag.neg else mag)
    else .nan

/-! ### JSON values and `JSON.parse` -/

/-- A parsed JSON value.  Objects keep their field list in source
    order; duplicate keys are resolved to the last occurrence by
    `lookupLast`, matching `JSON.parse`. -/
inductive Json where
  | null
  | bool (b : Bool)
  | num (q : JsRat)
  | str (s : String)
  | arr (elems : List Json)
  | obj (fields : List (String × Json))

/-- Shorthand for an integer-valued JSON number. -/
def Json.int (n : ℤ) : Json := .num (.ofInt n)

/-- Last-wins field lookup, the semantics of a parsed JS object. -/
def lookupLast (fields : List (String × Json)) (k : String) : Option Json :=
  fields.foldl (fun acc f => if f.1 = k then some f.2 else acc) none

def isJsonWs (c : Char) : Bool :=
  c == ' ' || c == '\t' || c == '\n' || c == '\r'

def skipJsonWs (l : List Char) : List Char := l.dropWhile isJsonWs

def isHexDigit (c : Char) : Bool :=
  ('0' ≤ c && c ≤ '9') || ('a' ≤ c && c ≤ 'f') || ('A' ≤ c && c ≤ 'F')

def hexVal (c : Char) : ℕ :=
  if '0' ≤ c ∧ c ≤ '9' then c.toNat - 48
  else if 'a' ≤ c ∧ c ≤ 'f' then c.toNat - 87
  else c.toNat - 55

/-- Parse the body of a JSON string literal (after the opening quote),
    returning the decoded characters and the input after the closing
    quote. -/
def parseStrBody : ℕ → List Char → Option (List Char × List Char)
  | 0, _ => none
  | _, [] => none
  | fuel + 1, c :: rest =>
    if c == '"' then some ([], rest)
    else if c == '\\' then
      match rest with
      | [] => none
      | e :: rest2 =>
        let k : Option (Char × List Char) :=
          if e == '"' then some ('"', rest2)
          else if e == '\\' then some ('\\', rest2)
          else if e == '/' then some ('/', rest2)
          else if e == 'b' then some (Char.ofNat 8, rest2)
          else if e == 'f' then some (Char.ofNat 12, rest2)
          else if e == 'n' then some ('\n', rest2)
          else if e == 'r' then some ('\r', rest2)
          else if e == 't' then some ('\t', rest2)
          else if e == 'u' then
            match rest2 with
            | h1 :: h2 :: h3 :: h4 :: rest3 =>
              if isHexDigit h1 && isHexDigit h2 && isHexDigit h3 && isHexDigit h4 then
                some (Char.ofNat
                  (((hexVal h1 * 16 + hexVal h2) * 16 + hexVal h3) * 16 + hexVal h4),
                  rest3)
              else none
            | _ => none
          else none
        match k with
        | none => none
        | some (ch, rest3) =>
          match parseStrBody fuel rest3 with
          | some (cs, tail) => some (ch :: cs, tail)
          | none => none
    else if c.toNat < 32 then none
    else
      match parseStrBody fuel rest with
      | some (cs, tail) => some (c :: cs, tail)
      | none => none

/-- Parse a JSON number starting at a digit or a minus sign. -/
def parseJsonNum (l : List Char) : Option (JsRat × List Char) :=
  let (neg, l1) : Bool × List Char :=
    match l with
    | '-' :: rest => (true, rest)
    | _ => (false, l)
  let ipart := l1.takeWhile Char.isDigit
  let rest1 := l1.dropWhile Char.isDigit
  -- grammar: 0 | [1-9][0-9]*  (a leading zero may not be followed by
  -- more digits)
  if ipart.isEmpty then none
  else if 2 ≤ ipart.length ∧ ipart.headD ' ' = '0' then none
  else
    let (fpart, rest2, pointOk) : List Char × List Char × Bool :=
      match rest1 with
      | '.' :: r =>
        (r.takeWhile Char.isDigit, r.dropWhile Char.isDigit,
         ¬ (r.takeWhile Char.isDigit).isEmpty)
      | _ => ([], rest1, true)
    if ¬ pointOk then none
    else
      let mant : JsRat :=
        ⟨digitsToNat ipart * pow10 fpart.length + digitsToNat fpart,
         pow10 fpart.length⟩
      let withExp : Option (JsRat × List Char) :=
        match rest2 with
        | 'e' :: r => expTail mant r
        | 'E' :: r => expTail mant r
        | _ => some (mant, rest2)
      match withExp with
      | none => none
      | some (q, rest3) => some ((if neg then q.neg else q), rest3)
where
  expTail (mant : JsRat) (r : List Char) : Option (JsRat × List Char) :=
    let (eneg, r1) : Bool × List Char :=
      match r with
      | '-' :: rest => (true, rest)
      | '+' :: rest => (false, rest)
      | _ => (false, r)
    let ds := r1.takeWhile Char.isDigit
    if ds.isEmpty then none
    else
      some (mant.scale10 eneg (digitsToNat ds), r1.dropWhile Char.isDigit)

mutual

/-- Parse one JSON value (leading white space allowed). -/
def parseVal : ℕ → List Char → Option (Json × List Char)
  | 0, _ => none
  | fuel + 1, l =>
    let l := skipJsonWs l
    match l with
    | [] => none
    | c :: rest =>
      if c == 'n' then
        match rest with
        | 'u' :: 'l' :: 'l' :: tail => some (.null, tail)
        | _ => none
      else if c == 't' then
        match rest with
        | 'r' :: 'u' :: 'e' :: tail => some (.bool true, tail)
        | _ => none
      else if c == 'f' then
        match rest with
        | 'a' :: 'l' :: 's' :: 'e' :: tail => some (.bool false, tail)
        | _ => none
      else if c == '"' then
        match parseStrBody (rest.length + 1) rest with
        | some (cs, tail) => some (.str ⟨cs⟩, tail)
        | none => none
      else if c == '[' then
        match skipJsonWs rest with
        | ']' :: tail => some (.arr [], tail)
        | l2 =>
          match parseItems fuel l2 with
          | some (vs, tail) => some (.arr vs, tail)
          | none => none
      else if c == lbrace then
        match skipJsonWs rest with
        | b :: tail =>
          if b == rbrace then some (.obj [], tail)
          else
            match parseMembers fuel (b :: tail) with
            | some (fs, tail2) => some (.obj fs, tail2)
            | none => none
        | [] => none
      else if c == '-' ∨ c.isDigit then
        match parseJsonNum (c :: rest) with
        | some (q, tail) => some (.num q, tail)
        | none => none
      else none

/-- Parse a nonempty comma-separated item list and the closing `]`. -/
def parseItems : ℕ → List Char → Option (List Json × List Char)
  | 0, _ => none
  | fuel + 1, l =>
    match parseVal fuel l with
    | none => none
    | some (v, rest) =>
      match skipJsonWs rest with
      | ',' :: rest2 =>
        match parseItems fuel rest2 with
        | some (vs, tail) => some (v :: vs, tail)
        | none => none
      | ']' :: tail => some ([v], tail)
      | _ => none

/-- Parse a nonempty `"key": value` member list and the closing brace. -/
def parseMembers : ℕ → List Char → Option (List (String × Json) × List Char)
  | 0, _ => none
  | fuel + 1, l =>
    match skipJsonWs l with
    | '"' :: rest =>
      match parseStrBody (rest.length + 1) rest with
      | none => none
      | some (ks, rest2) =>
        match skipJsonWs rest2 with
        | ':' :: rest3 =>
          match parseVal fuel rest3 with
          | none => none
          | some (v, rest4) =>
            match skipJsonWs rest4 with
            | ',' :: rest5 =>
              match parseMembers fuel rest5 with
              | some (fs, tail) => some ((⟨ks⟩, v) :: fs, tail)
              | none => none
            | b :: tail =>
              if b == rbrace then some ([(⟨ks⟩, v)], tail) else none
            | [] => none
        | _ => none
    | _ => none

end

/-- `JSON.parse`: one value, then only trailing white space. -/
def Json.parse (s : String) : Except String Json :=
  match parseVal (2 * s.length + 2) s.data with
  | none => .error "Unexpected token in JSON"
  | some (v, rest) =>
    if (skipJsonWs rest).isEmpty then .ok v
    else .error "Unexpected trailing characters in JSON"

/-- Whether an `Except` is an error (a thrown JS exception). -/
def isErr {ε α : Type} : Except ε α → Bool
  | .error _ => true
  | .ok _ => false

/-! ### JS coercions on parsed JSON values -/

def stripTrailingZeros (l : List Char) : List Char :=
  (l.reverse.dropWhile (· == '0')).reverse

def padLeftZeros (s : String) (k : ℕ) : String :=
  ⟨List.replicate (k - s.length) '0' ++ s.data⟩

/-- Decimal rendering of a finite JS number whose denominator is a
    power of ten (every denominator built by this model is).  Matches
    `String(x)` for such values in the ranges the sources handle. -/
def JsRat.render (q : JsRat) : String :=
  let sign := if q.num < 0 then "-" else ""
  let a := q.num.natAbs
  let d := q.den.natAbs
  let whole := a / d
  let rem := a % d
  if rem = 0 then sign ++ toString whole
  else
    let k := (toString d).length - 1
    sign ++ toString whole ++ "." ++
      ⟨stripTrailingZeros (padLeftZeros (toString rem) k).data⟩

mutual

/-- `String(v)` for a parsed JSON value: array elements join with
    commas (`null` renders empty inside an array), objects render as
    `[object Object]`. -/
def jsToString : Json → String
  | .null => "null"
  | .bool true => "true"
  | .bool false => "false"
  | .num q => q.render
  | .str s => s
  | .arr es => String.intercalate "," (arrElemStrings es)
  | .obj _ => "[object Object]"

def arrElemStrings : List Json → List String
  | [] => []
  | .null :: es => "" :: arrElemStrings es
  | e :: es => jsToString e :: arrElemStrings es

end

/-- `Number(v)` for a parsed JSON value; arrays and objects coerce via
    their string rendering. -/
def jsToNumber : Json → JsNum
  | .null => .fin (.ofInt 0)
  | .bool b => .fin (.ofInt (if b then 1 else 0))
  | .num q => .fin q
  | .str s => jsStringToNum s
  | .arr es => jsStringToNum (jsToString (.arr es))
  | .obj fs => jsStringToNum (jsToString (.obj fs))

/-- `Number(x)` where `x` may be `undefined` (an absent field). -/
def jsToNumberOpt : Option Json → JsNum
  | none => .nan
  | some j => jsToNumber j

/-- JS truthiness of a possibly-`undefined` parsed JSON value. -/
def jsTruthy : Option Json → Bool
  | none => false
  | some .null => false
  | some (.bool b) => b
  | some (.num q) => q.num != 0
  | some (.str s) => s != ""
  | some (.arr _) => true
  | some (.obj _) => true

/-- `String(x)` where `x` may be `undefined`. -/
def jsToStringOpt : Option Json → String
  | none => "undefined"
  | some j => jsToString j

/-- JS property access `j.k`: throws (`TypeError`) on `null`, yields
    `undefined` (`none`) on primitives and arrays, and the last-wins
    field value on objects. -/
def getField (j : Json) (k : String) : Except String (Option Json) :=
  match j with
  | .null => .error "Cannot read properties of null"
  | .obj fs => .ok (lookupLast fs k)
  | _ => .ok none

/-! ### The UTC calendar

    `toISOString().slice(0, 10)` renders the UTC calendar date of an
    instant.  The calendar is modelled as the proleptic Gregorian
    calendar obtained by iterating the successor-day function from
    1970-01-01 (day 0); instants before the epoch are outside the
    model and the theorems carry the corresponding bound. -/

structure Date where
  year : ℕ
  month : ℕ
  day : ℕ
deriving DecidableEq

def isLeap (y : ℕ) : Bool :=
  (y % 4 == 0 && y % 100 != 0) || y % 400 == 0

def daysInMonth (y m : ℕ) : ℕ :=
  if m = 2 then (if isLeap y then 29 else 28)
  else if m = 4 ∨ m = 6 ∨ m = 9 ∨ m = 11 then 30
  else 31

def nextDate (d : Date) : Date :=
  if d.day < daysInMonth d.year d.month then ⟨d.year, d.month, d.day + 1⟩
  else if d.month < 12 then ⟨d.year, d.month + 1, 1⟩
  else ⟨d.year + 1, 1, 1⟩

def epochDate : Date := ⟨1970, 1, 1⟩

/-- The calendar date of epoch day `n`. -/
def dateOfDay (n : ℕ) : Date := nextDate^[n] epochDate

def msPerDay : ℤ := 86400000

/-- The epoch day of an instant in epoch milliseconds (`/` on `ℤ` is
    Euclidean division, which is floor division for this positive
    divisor, matching JS date internals). -/
def epochDay (t : ℤ) : ℤ := t / msPerDay

def digitChar (n : ℕ) : Char := Char.ofNat (48 + n)

def pad2L (n : ℕ) : List Char := [digitChar (n / 10 % 10), digitChar (n % 10)]

def pad4L (n : ℕ) : List Char :=
  [digitChar (n / 1000 % 10), digitChar (n / 100 % 10),
   digitChar (n / 10 % 10), digitChar (n % 10)]

/-- The `YYYY-MM-DD` rendering of a calendar date. -/
def Date.key (d : Date) : String :=
  ⟨pad4L d.year ++ '-' :: (pad2L d.month ++ '-' :: pad2L d.day)⟩

/-- `dateKey(ts)` from both screens:
    `new Date(ts).toISOString().slice(0, 10)`. -/
def dateKey (ts : ℤ) : String := (dateOfDay (epochDay ts).toNat).key

/-- `lastNDays(n)` (src/unnamed/part_001), with the implicit clock made
    explicit as the reference instant `t`.  In a fixed-offset time
    zone, `x.setDate(d.getDate() - i)` on a copy `x` of `d` yields the
    instant `t - i * 86400000`, whose UTC date the loop then renders. -/
def lastNDays (n : ℕ) (t : ℤ) : List String :=
  (List.range n).map (fun (i : ℕ) => dateKey (t - (i : ℤ) * msPerDay))

/-! ### The meal ledger and aggregation -/

structure Meal where
  id : String
  ts : ℤ
  description : String
  calories : ℤ
  protein_g : ℤ
  photoUri : Option String
deriving DecidableEq

/-- `list.reduce((s, m) => s + f(m), 0)`. -/
def sumBy (f : Meal → ℤ) (l : List Meal) : ℤ :=
  l.foldl (fun s m => s + f m) 0

/-- The totals computed for one day bucket: the HomeScreen `totals`
    over `todaysMeals`, and one entry of the WeekScreen `perDay`. -/
def totalsForDay (meals : List Meal) (day : String) : ℤ × ℤ :=
  (sumBy Meal.calories (meals.filter (fun m => dateKey m.ts == day)),
   sumBy Meal.protein_g (meals.filter (fun m => dateKey m.ts == day)))

structure DayTotals where
  day : String
  calories : ℤ
  protein : ℤ

/-- WeekScreen `perDay`. -/
def perDay (meals : List Meal) (days : List String) : List DayTotals :=
  days.map fun day =>
    let dayMeals := meals.filter (fun m => dateKey m.ts == day)
    ⟨day, sumBy Meal.calories dayMeals, sumBy Meal.protein_g dayMeals⟩

/-- WeekScreen `weeklyTotals`: fold of `perDay`. -/
def weeklyTotals (meals : List Meal) (days : List String) : ℤ × ℤ :=
  ((perDay meals days).foldl (fun s d => s + d.calories) 0,
   (perDay meals days).foldl (fun s d => s + d.protein) 0)

/-! ### The HomeScreen state machine (src/index.tsx) -/

structure HomeState where
  meals : List Meal
  showModal : Bool
  desc : String
  calText : String
  protText : String
  photoUri : Option String
  estimating : Bool
  estimateError : Option String
deriving DecidableEq

/-- `saveMeal`.  The generated id `(Date.now() + Math.random())
    .toString(36)` and the clock are oracle parameters.  The returned
    flag records whether `persist` ran (an `AsyncStorage` write of the
    new list); on the alert path the handler returns before any state
    change. -/
def saveMeal (s : HomeState) (newId : String) (now : ℤ) : HomeState × Bool :=
  match parseIntJS (jsOr s.calText "0"), parseIntJS (jsOr s.protText "0") with
  | some calories, some protein_g =>
    let meal : Meal :=
      ⟨newId, now, jsOr (jsTrim s.desc) "Meal", calories, protein_g, s.photoUri⟩
    ({ s with meals := meal :: s.meals, showModal := false }, true)
  | _, _ => (s, false)

/-- `deleteMeal`: filter by id, then persist. -/
def deleteMeal (s : HomeState) (targetId : String) : HomeState × Bool :=
  ({ s with meals := s.meals.filter (fun m => m.id != targetId) }, true)

/-- The startup load effect: `AsyncStorage.getItem` yields `raw`;
    `setMeals(raw ? JSON.parse(raw) : [])`.  A missing or empty (falsy)
    value yields the empty list; otherwise `JSON.parse` runs with no
    handler, so its exception propagates; a successful parse is
    installed as state without shape validation. -/
def loadMeals (raw : Option String) : Except String Json :=
  match raw with
  | none => .ok (.arr [])
  | some s => if s = "" then .ok (.arr []) else Json.parse s

/-- The observable outcome of the `fetch` to `/estimate`. -/
inductive FetchOutcome where
  | ok (body : Json)
  | httpErr (status : ℕ) (text : String)
  | exn (msg : String)

/-- Outcomes on which the client call fails: HTTP error, thrown
    network/parse error, or a `200` body of JSON `null` (on which the
    property reads throw).  -/
def FetchOutcome.fails : FetchOutcome → Bool
  | .ok .null => true
  | .ok _ => false
  | .httpErr _ _ => true
  | .exn _ => true

/-- `estimateFromPhoto`: no-op without a photo; otherwise clears the
    error, sets the busy flag, performs the call, and on success fills
    the draft from the response with `|| "Food"` and
    `String(Math.round(Number(x) || 0))` normalisation; every failure
    lands in the catch block, which only records the error message; the
    busy flag is always cleared by the finally block. -/
def estimateFromPhoto (s : HomeState) (outcome : FetchOutcome) : HomeState :=
  match s.photoUri with
  | none => s
  | some _ =>
    let s1 := { s with estimateError := none, estimating := true }
    match outcome with
    | .ok data =>
      match getField data "description", getField data "calories",
            getField data "protein_g" with
      | .ok dv, .ok cv, .ok pv =>
        { s1 with
          desc := if jsTruthy dv then jsToStringOpt dv else "Food",
          calText := ((jsToNumberOpt cv).orZero).round.render,
          protText := ((jsToNumberOpt pv).orZero).round.render,
          estimating := false }
      | _, _, _ =>
        { s1 with estimateError := some "Cannot read properties of null",
                  estimating := false }
    | .httpErr status text =>
      { s1 with
        estimateError := some ("Server error " ++ toString status ++ ": " ++ text),
        estimating := false }
    | .exn msg =>
      { s1 with
        estimateError :=
          some (jsOr msg "Couldn\u2019t estimate from photo. Try again."),
        estimating := false }

/-! ### The Express server (src/unnamed/part_000) -/

/-- One scan of `replace(/```json\s*/gi, "")` with explicit fuel (so
    that the kernel can evaluate it): a case-insensitive
    triple-backtick-`json` prefix plus the white space after it is
    dropped; otherwise scanning advances one character, as the global
    regex replace does.  Each step shortens the list, so fuel equal to
    the length is always enough; exhausted fuel returns the remainder
    unchanged (unreachable from the wrapper). -/
def stripFencesJsonF : ℕ → List Char → List Char
  | 0, l => l
  | fuel + 1, l =>
    match l with
    | a :: b :: c :: d :: e :: f :: g :: rest =>
      if a == backquote && b == backquote && c == backquote &&
         d.toLower == 'j' && e.toLower == 's' && f.toLower == 'o' &&
         g.toLower == 'n' then
        stripFencesJsonF fuel (rest.dropWhile isJsWs)
      else a :: stripFencesJsonF fuel (b :: c :: d :: e :: f :: g :: rest)
    | a :: rest => a :: stripFencesJsonF fuel rest
    | [] => []

def stripFencesJson (l : List Char) : List Char :=
  stripFencesJsonF l.length l

/-- `replace(/```\s*/g, "")`, same fuel device. -/
def stripFencesAllF : ℕ → List Char → List Char
  | 0, l => l
  | fuel + 1, l =>
    match l with
    | a :: b :: c :: rest =>
      if a == backquote && b == backquote && c == backquote then
        stripFencesAllF fuel (rest.dropWhile isJsWs)
      else a :: stripFencesAllF fuel (b :: c :: rest)
    | a :: rest => a :: stripFencesAllF fuel rest
    | [] => []

def stripFencesAll (l : List Char) : List Char :=
  stripFencesAllF l.length l

/-- `lastIndexOf` on a character list. -/
def lastIdxOf (c : Char) (l : List Char) : Option ℕ :=
  match l.reverse.findIdx? (· == c) with
  | none => none
  | some i => some (l.length - 1 - i)

/-- The `extractJson` helper of the `/estimate` handler. -/
def extractJsonL (text : List Char) : List Char :=
  let noFences := jsTrimL (stripFencesAll (stripFencesJson text))
  if noFences.head? == some lbrace ∧ noFences.getLast? == some rbrace then
    noFences
  else
    match noFences.findIdx? (· == lbrace), lastIdxOf rbrace noFences with
    | some start, some stop =>
      if start < stop then (noFences.take (stop + 1)).drop start else noFences
    | _, _ => noFences

def extractJson (s : String) : String := ⟨extractJsonL s.data⟩

def missingPhotoBody : Json := .obj [("error", .str "Missing photo")]

def serverErrorBody (details : String) : Json :=
  .obj [("error", .str "Server error"), ("details", .str details)]

def modelNotJsonBody (raw : String) : Json :=
  .obj [("error", .str "Model did not return JSON"), ("raw", .str raw)]

/-- `res.json` serialises `NaN` and the infinities as JSON `null`. -/
def JsRounded.toJson : JsRounded → Json
  | .int n => .int n
  | _ => .null

/-- The `out` object of the success path:
    `String(parsed.description || "Food")` and
    `Math.round(Number(parsed.x) || 0)`; property access throws when
    `parsed` is JSON `null`. -/
def buildOut (parsed : Json) : Except String Json := do
  let dv ← getField parsed "description"
  let cv ← getField parsed "calories"
  let pv ← getField parsed "protein_g"
  pure (.obj
    [("description", .str (if jsTruthy dv then jsToStringOpt dv else "Food")),
     ("calories", (((jsToNumberOpt cv).orZero).round).toJson),
     ("protein_g", (((jsToNumberOpt pv).orZero).round).toJson)])

/-- `resp.output_text?.trim() || ""`. -/
def rawTextOf : Option String → String
  | none => ""
  | some s => jsTrim s

structure Response where
  status : ℕ
  body : Json

/-- The `POST /estimate` handler.  `file` is `req.file` (the multer
    upload path), `readRes` the outcome of `fs.readFileSync`, and
    `upstream` the outcome of the OpenAI call carrying `output_text`.
    The returned flag records whether the finally block invoked
    `fs.unlink` on the temporary file. -/
def estimateHandler (file : Option String) (readRes : Except String Unit)
    (upstream : Except String (Option String)) : Response × Bool :=
  match file with
  | none => (⟨400, missingPhotoBody⟩, false)
  | some _ =>
    let resp : Response :=
      match readRes with
      | .error e => ⟨500, serverErrorBody e⟩
      | .ok _ =>
        match upstream with
        | .error e => ⟨500, serverErrorBody e⟩
        | .ok o =>
          let rawText := rawTextOf o
          match Json.parse (extractJson rawText) with
          | .error _ => ⟨500, modelNotJsonBody rawText⟩
          | .ok parsed =>
            match buildOut parsed with
            | .ok out => ⟨200, out⟩
            | .error e => ⟨500, serverErrorBody e⟩
    (resp, true)

/-- The `GET /health` handler. -/
def healthHandler : Response := ⟨200, .obj [("ok", .bool true)]⟩

/-! ### Auxiliary definitions used in theorem statements -/

/-- The `rawText` the handler computes for a given upstream oracle
    (meaningful when the oracle is `ok`). -/
def oracleRaw : Except String (Option String) → String
  | .ok o => rawTextOf o
  | .error _ => ""

/-- Strict calendar order on dates. -/
def Date.lt (a b : Date) : Prop :=
  a.year < b.year ∨
    (a.year = b.year ∧
      (a.month < b.month ∨ (a.month = b.month ∧ a.day < b.day)))

/-- A well-formed calendar date from the epoch year on. -/
def Date.Valid (d : Date) : Prop :=
  1 ≤ d.month ∧ d.month ≤ 12 ∧ 1 ≤ d.day ∧
    d.day ≤ daysInMonth d.year d.month ∧ 1970 ≤ d.year

/-- A fresh modal draft holding a photo (the state right after
    `openModal` plus `takePhoto`). -/
def sampleDraft : HomeState :=
  ⟨[], true, "", "", "", some "file:photo.jpg", false, none⟩

/-- A draft whose calories field reads `-5`. -/
def negDraft : HomeState :=
  ⟨[], true, "", "-5", "", none, false, none⟩

/-- A ledger already holding the id that the id oracle is about to
    produce again. -/
def dupDraft : HomeState :=
  ⟨[⟨"m3k2x.9q1", 0, "Meal", 1, 2, none⟩], true, "", "1", "2", none,
   false, none⟩

/-! ## Theorems for the claims -/

/-- C2, counterexample: with the stored value `"\x7b"` (a lone opening
    brace, unparsable JSON), the load effect does not produce the empty
    meal sequence; `JSON.parse` throws and the exception propagates, so
    the claim that corrupt data fails closed to the empty sequence is
    false on this input. -/
theorem C2_counterexample :
    loadMeals (some "\x7b") = .error "Unexpected token in JSON" ∧
    ∀ v, loadMeals (some "\x7b") ≠ .ok v := by
  refine ⟨rfl, fun v h => ?_⟩
  rw [show loadMeals (some "\x7b") = .error "Unexpected token in JSON" from rfl]
    at h
  exact Except.noConfusion h

/-- C2, amended: the load effect yields the empty sequence exactly on a
    falsy stored value (absent, or the empty string); any other stored
    string is handed to `JSON.parse` unvalidated, whose result — value
    or thrown exception — propagates (a parse failure is possible, and
    a parseable non-corrupt value round-trips). -/
theorem C2_amended_load :
    loadMeals none = .ok (.arr []) ∧
    loadMeals (some "") = .ok (.arr []) ∧
    (∀ s : String, s ≠ "" → loadMeals (some s) = Json.parse s) ∧
    isErr (Json.parse "\x7b") = true ∧
    Json.parse "[]" = .ok (.arr []) := by
  refine ⟨rfl, rfl, fun s hs => ?_, rfl, rfl⟩
  simp [loadMeals, hs]

/-- C2, amended, witness at the stored value `"[0]"`. -/
theorem C2_amended_load_witness :
    ("[0]" : String) ≠ "" ∧ loadMeals (some "[0]") = Json.parse "[0]" :=
  ⟨by decide, C2_amended_load.2.2.1 "[0]" (by decide)⟩

/-- C8: whenever the request carried an uploaded photo (`req.file` is
    present), the handler's finally block unlinks the per-request
    temporary file, on the success path and on every error path (read
    failure, upstream failure, unparsable model output, and the
    null-body property-access failure). -/
theorem C8_temp_file_cleanup :
    ∀ (p : String) (readRes : Except String Unit)
      (upstream : Except String (Option String)),
      (estimateHandler (some p) readRes upstream).2 = true := by
  intro p readRes upstream
  rfl

/-- C10: when the photo-estimation call fails (HTTP error status,
    thrown network/parse error, or a body on which the property reads
    throw), only the error message is set: the draft description,
    calories text, protein text, photo reference, and the meal ledger
    are unchanged, and an error message is present. -/
theorem C10_estimate_failure_frame :
    ∀ (s : HomeState) (outcome : FetchOutcome),
      s.photoUri.isSome = true → outcome.fails = true →
      (estimateFromPhoto s outcome).desc = s.desc ∧
      (estimateFromPhoto s outcome).calText = s.calText ∧
      (estimateFromPhoto s outcome).protText = s.protText ∧
      (estimateFromPhoto s outcome).photoUri = s.photoUri ∧
      (estimateFromPhoto s outcome).meals = s.meals ∧
      ∃ msg, (estimateFromPhoto s outcome).estimateError = some msg := by
  intro s outcome hp hf
  obtain ⟨u, hu⟩ := Option.isSome_iff_exists.mp hp
  cases outcome with
  | ok data =>
    cases data with
    | null => simp [estimateFromPhoto, hu, getField]
    | _ => simp [FetchOutcome.fails] at hf
  | httpErr status text => simp [estimateFromPhoto, hu]
  | exn msg =>
    refine ⟨?_, ?_, ?_, ?_, ?_, ?_⟩ <;> simp [estimateFromPhoto, hu, jsOr]

/-- C10, witness: a failing call on the fresh photo draft. -/
theorem C10_estimate_failure_frame_witness :
    sampleDraft.photoUri.isSome = true ∧
    (FetchOutcome.httpErr 500 "oops").fails = true ∧
    ((estimateFromPhoto sampleDraft (.httpErr 500 "oops")).desc
        = sampleDraft.desc ∧
      (estimateFromPhoto sampleDraft (.httpErr 500 "oops")).calText
        = sampleDraft.calText ∧
      (estimateFromPhoto sampleDraft (.httpErr 500 "oops")).protText
        = sampleDraft.protText ∧
      (estimateFromPhoto sampleDraft (.httpErr 500 "oops")).photoUri
        = sampleDraft.photoUri ∧
      (estimateFromPhoto sampleDraft (.httpErr 500 "oops")).meals
        = sampleDraft.meals ∧
      ∃ msg, (estimateFromPhoto sampleDraft
        (.httpErr 500 "oops")).estimateError = some msg) :=
  ⟨rfl, rfl,
    C10_estimate_failure_frame sampleDraft (.httpErr 500 "oops") rfl rfl⟩

/-- C1, counterexample: with `calText = "-5"` (and blank protein), the
    field does not parse as a non-negative integer — `parseInt` yields
    `-5 < 0` — yet `saveMeal` does not reject: it persists and creates
    a meal carrying negative calories.  So append does not reject
    exactly when a field fails to parse as a *non-negative* integer;
    only a `NaN` parse is rejected. -/
theorem C1_counterexample :
    parseIntJS (jsOr negDraft.calText "0") = some (-5) ∧ (-5 : ℤ) < 0 ∧
    (saveMeal negDraft "m3k2x.9q1" 7).2 = true ∧
    (saveMeal negDraft "m3k2x.9q1" 7).1.meals
      = [⟨"m3k2x.9q1", 7, "Meal", -5, 0, none⟩] :=
  ⟨rfl, by decide, rfl, rfl⟩

/-- C1, amended: `saveMeal` rejects — returning with the state
    unchanged and without persisting — exactly when either field
    (blank fields defaulting to `"0"`) fails `parseInt(_, 10)`, i.e.
    yields `NaN`; a blank pair is accepted and creates a meal with
    `calories = 0` and `protein_g = 0`.  Negative or trailing-garbage
    entries parse and are therefore accepted, not rejected. -/
theorem C1_amended_validation :
    ∀ (s : HomeState) (newId : String) (now : ℤ),
      (((saveMeal s newId now).2 = false ∧ (saveMeal s newId now).1 = s) ↔
        (parseIntJS (jsOr s.calText "0") = none ∨
          parseIntJS (jsOr s.protText "0") = none)) ∧
      (s.calText = "" → s.protText = "" →
        (saveMeal s newId now).2 = true ∧
        (saveMeal s newId now).1.meals
          = ⟨newId, now, jsOr (jsTrim s.desc) "Meal", 0, 0, s.photoUri⟩
              :: s.meals) := by
  intro s newId now
  constructor
  · rcases hc : parseIntJS (jsOr s.calText "0") with _ | cal <;>
      rcases hp : parseIntJS (jsOr s.protText "0") with _ | prot <;>
      simp [saveMeal, hc, hp]
  · intro hcal hprot
    have hc : parseIntJS (jsOr s.calText "0") = some 0 := by
      rw [hcal]; rfl
    have hp : parseIntJS (jsOr s.protText "0") = some 0 := by
      rw [hprot]; rfl
    simp [saveMeal, hc, hp]

/-- C1, amended, witness: the blank-fields scenario on the fresh
    draft. -/
theorem C1_amended_validation_witness :
    sampleDraft.calText = "" ∧ sampleDraft.protText = "" ∧
    ((saveMeal sampleDraft "m3k2x.9q1" 7).2 = true ∧
      (saveMeal sampleDraft "m3k2x.9q1" 7).1.meals
        = ⟨"m3k2x.9q1", 7, "Meal", 0, 0, some "file:photo.jpg"⟩ :: []) :=
  ⟨rfl, rfl, (C1_amended_validation sampleDraft "m3k2x.9q1" 7).2 rfl rfl⟩

/-- C4, counterexample: the generated id `(Date.now() + Math.random())
    .toString(36)` is not checked against the ledger; when the id
    oracle repeats a value already present (possible, since the
    generator is clock-plus-random with no uniqueness check), append
    produces a duplicated id, so id uniqueness is not an invariant the
    code preserves. -/
theorem C4_counterexample :
    ((saveMeal dupDraft "m3k2x.9q1" 5).1.meals.map Meal.id)
      = ["m3k2x.9q1", "m3k2x.9q1"] ∧
    ¬ ((saveMeal dupDraft "m3k2x.9q1" 5).1.meals.map Meal.id).Nodup := by
  refine ⟨rfl, ?_⟩
  rw [show ((saveMeal dupDraft "m3k2x.9q1" 5).1.meals.map Meal.id)
      = ["m3k2x.9q1", "m3k2x.9q1"] from rfl]
  decide

/-- C4, amended: for every ledger state and valid (non-negative
    integer) pair, *provided the generated id differs from every id
    already in the ledger*, append prepends exactly one new meal
    carrying those values, its id differs from every existing meal's,
    and id distinctness of the ledger is preserved — by append under
    that freshness assumption, and by delete unconditionally. -/
theorem C4_amended_append :
    ∀ (s : HomeState) (newId : String) (now : ℤ) (cal prot : ℤ),
      parseIntJS (jsOr s.calText "0") = some cal →
      parseIntJS (jsOr s.protText "0") = some prot →
      0 ≤ cal → 0 ≤ prot →
      newId ∉ s.meals.map Meal.id →
      (saveMeal s newId now).1.meals
        = ⟨newId, now, jsOr (jsTrim s.desc) "Meal", cal, prot, s.photoUri⟩
            :: s.meals ∧
      (∀ m ∈ s.meals, m.id ≠ newId) ∧
      ((s.meals.map Meal.id).Nodup →
        ((saveMeal s newId now).1.meals.map Meal.id).Nodup) ∧
      (∀ tid, (s.meals.map Meal.id).Nodup →
        ((deleteMeal s tid).1.meals.map Meal.id).Nodup) := by
  intro s newId now cal prot hc hp _ _ hfresh
  have hsave : (saveMeal s newId now).1.meals
      = ⟨newId, now, jsOr (jsTrim s.desc) "Meal", cal, prot, s.photoUri⟩
          :: s.meals := by
    simp [saveMeal, hc, hp]
  refine ⟨hsave, ?_, ?_, ?_⟩
  · intro m hm heq
    exact hfresh (heq ▸ List.mem_map_of_mem Meal.id hm)
  · intro hnd
    rw [hsave]
    simp only [List.map_cons, List.nodup_cons]
    exact ⟨fun hmem => hfresh hmem, hnd⟩
  · intro tid hnd
    have hsub : (deleteMeal s tid).1.meals.Sublist s.meals :=
      List.filter_sublist s.meals
    exact hnd.sublist (hsub.map Meal.id)

/-- C4, amended, witness: appending to the singleton ledger with a
    fresh id. -/
theorem C4_amended_append_witness :
    parseIntJS (jsOr dupDraft.calText "0") = some 1 ∧
    parseIntJS (jsOr dupDraft.protText "0") = some 2 ∧
    (0 : ℤ) ≤ 1 ∧ (0 : ℤ) ≤ 2 ∧
    "freshid.77" ∉ dupDraft.meals.map Meal.id ∧
    ((saveMeal dupDraft "freshid.77" 5).1.meals
        = ⟨"freshid.77", 5, "Meal", 1, 2, none⟩ :: dupDraft.meals ∧
      (∀ m ∈ dupDraft.meals, m.id ≠ "freshid.77") ∧
      ((dupDraft.meals.map Meal.id).Nodup →
        ((saveMeal dupDraft "freshid.77" 5).1.meals.map Meal.id).Nodup) ∧
      (∀ tid, (dupDraft.meals.map Meal.id).Nodup →
        ((deleteMeal dupDraft tid).1.meals.map Meal.id).Nodup)) :=
  ⟨rfl, rfl, by decide, by decide, by decide,
    C4_amended_append dupDraft "freshid.77" 5 1 2 rfl rfl (by decide)
      (by decide) (by decide)⟩

/-- C6: the estimation client normalizes a malformed upstream response:
    the scenario body `description "Salad"`, `calories "310.7"`,
    `protein_g null` fills the draft with `Salad`, `311`, `0`; and in
    general a missing description coerces to `"Food"` while missing or
    non-numeric (`NaN`-coercing) numeric fields coerce to `0`. -/
theorem C6_client_normalization :
    ((estimateFromPhoto sampleDraft
        (.ok (.obj [("description", .str "Salad"),
                    ("calories", .str "310.7"),
                    ("protein_g", .null)]))).desc = "Salad" ∧
      (estimateFromPhoto sampleDraft
        (.ok (.obj [("description", .str "Salad"),
                    ("calories", .str "310.7"),
                    ("protein_g", .null)]))).calText = "311" ∧
      (estimateFromPhoto sampleDraft
        (.ok (.obj [("description", .str "Salad"),
                    ("calories", .str "310.7"),
                    ("protein_g", .null)]))).protText = "0") ∧
    (∀ (s : HomeState) (fields : List (String × Json)),
      s.photoUri.isSome = true →
      ((lookupLast fields "description" = none →
          (estimateFromPhoto s (.ok (.obj fields))).desc = "Food") ∧
        (lookupLast fields "calories" = none →
          (estimateFromPhoto s (.ok (.obj fields))).calText = "0") ∧
        (lookupLast fields "protein_g" = none →
          (estimateFromPhoto s (.ok (.obj fields))).protText = "0") ∧
        (∀ v, lookupLast fields "calories" = some v → jsToNumber v = .nan →
          (estimateFromPhoto s (.ok (.obj fields))).calText = "0") ∧
        (∀ v, lookupLast fields "protein_g" = some v → jsToNumber v = .nan →
          (estimateFromPhoto s (.ok (.obj fields))).protText = "0"))) := by
  refine ⟨⟨rfl, rfl, rfl⟩, ?_⟩
  intro s fields hp
  obtain ⟨u, hu⟩ := Option.isSome_iff_exists.mp hp
  refine ⟨?_, ?_, ?_, ?_, ?_⟩
  · intro hd; simp [estimateFromPhoto, hu, getField, hd, jsTruthy]
  · intro hc
    simp only [estimateFromPhoto, hu, getField, hc]
    rfl
  · intro hpr
    simp only [estimateFromPhoto, hu, getField, hpr]
    rfl
  · intro v hc hv
    simp only [estimateFromPhoto, hu, getField, hc, jsToNumberOpt, hv]
    rfl
  · intro v hpr hv
    simp only [estimateFromPhoto, hu, getField, hpr, jsToNumberOpt, hv]
    rfl

/-- C6, witness for the quantified part: a response whose only field is
    a non-numeric calories entry coerces calories, protein and the
    description to their defaults. -/
theorem C6_client_normalization_witness :
    sampleDraft.photoUri.isSome = true ∧
    lookupLast [("calories", Json.str "abc")] "description" = none ∧
    lookupLast [("calories", Json.str "abc")] "calories"
      = some (Json.str "abc") ∧
    jsToNumber (Json.str "abc") = .nan ∧
    (estimateFromPhoto sampleDraft
      (.ok (.obj [("calories", Json.str "abc")]))).desc = "Food" ∧
    (estimateFromPhoto sampleDraft
      (.ok (.obj [("calories", Json.str "abc")]))).calText = "0" := by
  have h := C6_client_normalization.2 sampleDraft
    [("calories", Json.str "abc")] rfl
  exact ⟨rfl, rfl, rfl, rfl, h.1 rfl, h.2.2.2.1 (Json.str "abc") rfl rfl⟩

/-- The `Server error` body can never coincide with the
    `Model did not return JSON` body. -/
lemma serverError_ne_mnj (e raw : String) :
    serverErrorBody e = modelNotJsonBody raw → False := by
  intro h
  simp only [serverErrorBody, modelNotJsonBody, Json.obj.injEq,
    List.cons.injEq, Prod.mk.injEq, Json.str.injEq] at h
  exact absurd h.1.2 (by decide)

/-- The `Missing photo` body differs from every body the
    photo-present paths produce only through its status here; we only
    need that the 400 response is unique to the missing-photo case. -/
lemma estimateHandler_some_status (p : String) (r : Except String Unit)
    (u : Except String (Option String)) :
    (estimateHandler (some p) r u).1.status = 500 ∨
      (estimateHandler (some p) r u).1.status = 200 := by
  rcases r with e | v
  · left; rfl
  · rcases u with e | o
    · left; rfl
    · cases v
      rcases hparse : Json.parse (extractJson (rawTextOf o)) with e | parsed
      · left; simp [estimateHandler, hparse]
      · rcases hout : buildOut parsed with e | out
        · left; simp [estimateHandler, hparse, hout]
        · right; simp [estimateHandler, hparse, hout]

/-- C5: `GET /health` answers `200 / ok:true`; `POST /estimate`
    answers `400 / Missing photo` exactly when no photo file is
    present, and `500 / Model did not return JSON` carrying the raw
    model text exactly when a photo was present, the stages before the
    model ran succeeded, and the fence-stripped, brace-extracted model
    output still fails `JSON.parse`. -/
theorem C5_endpoint_contract :
    healthHandler.status = 200 ∧
    healthHandler.body = .obj [("ok", .bool true)] ∧
    (∀ (f : Option String) (r : Except String Unit)
        (u : Except String (Option String)),
      ((estimateHandler f r u).1.status = 400 ∧
        (estimateHandler f r u).1.body = missingPhotoBody) ↔ f = none) ∧
    (∀ (f : Option String) (r : Except String Unit)
        (u : Except String (Option String)),
      ((estimateHandler f r u).1.status = 500 ∧
        (estimateHandler f r u).1.body = modelNotJsonBody (oracleRaw u)) ↔
      (f.isSome = true ∧ r = .ok () ∧ Except.isOk u = true ∧
        isErr (Json.parse (extractJson (oracleRaw u))) = true)) := by
  refine ⟨rfl, rfl, ?_, ?_⟩
  · intro f r u
    rcases f with _ | p
    · simp [estimateHandler]
    · rcases estimateHandler_some_status p r u with h | h <;> simp [h]
  · intro f r u
    rcases f with _ | p
    · constructor
      · rintro ⟨h, -⟩
        exact absurd h (by simp [estimateHandler])
      · rintro ⟨h, -⟩
        exact absurd h (by simp)
    · rcases r with e | v
      · constructor
        · rintro ⟨-, hbody⟩
          exact absurd hbody (fun h => serverError_ne_mnj e (oracleRaw u) h)
        · rintro ⟨-, h, -⟩
          exact Except.noConfusion h
      · cases v
        rcases u with e | o
        · constructor
          · rintro ⟨-, hbody⟩
            exact absurd hbody
              (fun h => serverError_ne_mnj e (oracleRaw (.error e)) h)
          · rintro ⟨-, -, h, -⟩
            simp [Except.isOk, Except.toBool] at h
        · rcases hparse : Json.parse (extractJson (rawTextOf o)) with e | parsed
          · constructor
            · intro _
              exact ⟨rfl, rfl, rfl, by simp [oracleRaw, hparse, isErr]⟩
            · intro _
              constructor
              · simp [estimateHandler, hparse]
              · simp [estimateHandler, oracleRaw, hparse]
          · constructor
            · rintro ⟨hst, hbody⟩
              rcases hout : buildOut parsed with e | out
              · exact absurd (by simpa [estimateHandler, hparse, hout]
                    using hbody)
                  (fun h => serverError_ne_mnj e (oracleRaw (.ok o)) h)
              · have h200 : (estimateHandler (some p) (.ok ()) (.ok o)).1.status
                    = 200 := by
                  simp [estimateHandler, hparse, hout]
                rw [h200] at hst
                exact absurd hst (by decide)
            · rintro ⟨-, -, -, herr⟩
              rw [show oracleRaw (Except.ok o) = rawTextOf o from rfl,
                hparse] at herr
              simp [isErr] at herr

/-! ### Order lemmas for the `YYYY-MM-DD` rendering -/

/-- Lexicographic comparison is preserved by appending when the strict
    prefixes have equal length. -/
lemma listLt_append_of_lt :
    ∀ {a b : List Char}, a.length = b.length → a < b →
      ∀ (c d : List Char), a ++ c < b ++ d := by
  intro a b hlen h
  revert hlen
  induction h with
  | nil => intro hlen; simp at hlen
  | cons h ih =>
    intro hlen c d
    exact List.Lex.cons (ih (by simpa using hlen) c d)
  | rel h => intro _ c d; exact List.Lex.rel h

/-- Lexicographic comparison is preserved under a common prefix. -/
lemma listLt_append_left (a : List Char) {c d : List Char} (h : c < d) :
    a ++ c < a ++ d := by
  induction a with
  | nil => simpa using h
  | cons x xs ih => exact List.Lex.cons ih

lemma digitChar_lt_digitChar :
    ∀ a < 10, ∀ b < 10, a < b → digitChar a < digitChar b := by decide

lemma pad2L_lt {a b : ℕ} (hb : b ≤ 99) (h : a < b) : pad2L a < pad2L b := by
  rcases Nat.lt_or_ge (a / 10) (b / 10) with hd | hd
  · exact List.Lex.rel
      (digitChar_lt_digitChar (a / 10 % 10) (by omega) (b / 10 % 10)
        (by omega) (by omega))
  · have hdeq : a / 10 = b / 10 := by omega
    have hu : a % 10 < b % 10 := by omega
    rw [pad2L, pad2L, hdeq]
    exact List.Lex.cons (List.Lex.rel
      (digitChar_lt_digitChar (a % 10) (by omega) (b % 10) (by omega) hu))

lemma pad4L_eq_append (n : ℕ) :
    pad4L n = pad2L (n / 100) ++ pad2L (n % 100) := by
  have h1 : n / 1000 % 10 = n / 100 / 10 % 10 := by omega
  have h3 : n / 10 % 10 = n % 100 / 10 % 10 := by omega
  have h4 : n % 10 = n % 100 % 10 := by omega
  simp only [pad4L, pad2L, List.cons_append, List.nil_append, h1, h3, h4]

lemma pad4L_lt {a b : ℕ} (hb : b ≤ 9999) (h : a < b) : pad4L a < pad4L b := by
  rw [pad4L_eq_append a, pad4L_eq_append b]
  rcases Nat.lt_or_ge (a / 100) (b / 100) with hd | hd
  · exact listLt_append_of_lt (by simp [pad2L]) (pad2L_lt (by omega) hd) _ _
  · have hdeq : a / 100 = b / 100 := by omega
    have hu : a % 100 < b % 100 := by omega
    rw [hdeq]
    exact listLt_append_left _ (pad2L_lt (by omega) hu)

lemma daysInMonth_le_31 (y m : ℕ) : daysInMonth y m ≤ 31 := by
  unfold daysInMonth
  split
  · split <;> omega
  · split <;> omega

/-- Calendar order of valid dates within years 0–9999 agrees with
    lexicographic order of their `YYYY-MM-DD` renderings. -/
lemma dateKey_lt_of_date_lt {a b : Date} (hva : a.Valid) (hvb : b.Valid)
    (ha : a.year ≤ 9999) (hb : b.year ≤ 9999) (h : Date.lt a b) :
    a.key < b.key := by
  rw [String.lt_iff_toList_lt]
  show pad4L a.year ++ '-' :: (pad2L a.month ++ '-' :: pad2L a.day)
      < pad4L b.year ++ '-' :: (pad2L b.month ++ '-' :: pad2L b.day)
  obtain ⟨hma, hma2, hda, hda2, _⟩ := hva
  obtain ⟨hmb, hmb2, hdb, hdb2, _⟩ := hvb
  have hdayb : b.day ≤ 31 := le_trans hdb2 (daysInMonth_le_31 _ _)
  rcases h with hy | ⟨hy, hm | ⟨hm, hd⟩⟩
  · exact listLt_append_of_lt (by simp [pad4L]) (pad4L_lt hb hy) _ _
  · rw [hy]
    refine listLt_append_left _ (List.Lex.cons ?_)
    exact listLt_append_of_lt (by simp [pad2L]) (pad2L_lt (by omega) hm) _ _
  · rw [hy, hm]
    refine listLt_append_left _ (List.Lex.cons ?_)
    refine listLt_append_left _ (List.Lex.cons ?_)
    exact pad2L_lt (by omega) hd

/-! ### Calendar facts -/

lemma daysInMonth_pos (y m : ℕ) : 1 ≤ daysInMonth y m := by
  unfold daysInMonth
  split
  · split <;> omega
  · split <;> omega

lemma epochDate_valid : epochDate.Valid := by
  refine ⟨by decide, by decide, by decide, ?_, by decide⟩
  decide

lemma nextDate_valid {d : Date} (h : d.Valid) : (nextDate d).Valid := by
  obtain ⟨h1, h2, h3, h4, h5⟩ := h
  have hp1 : 1 ≤ daysInMonth d.year (d.month + 1) := daysInMonth_pos _ _
  have hp2 : 1 ≤ daysInMonth (d.year + 1) 1 := daysInMonth_pos _ _
  unfold nextDate Date.Valid
  split
  · next hlt => refine ⟨?_, ?_, ?_, ?_, ?_⟩ <;> dsimp only <;> omega
  · split
    · next hm => refine ⟨?_, ?_, ?_, ?_, ?_⟩ <;> dsimp only <;> omega
    · next hm => refine ⟨?_, ?_, ?_, ?_, ?_⟩ <;> dsimp only <;> omega

lemma nextDate_lt {d : Date} (h : d.Valid) : Date.lt d (nextDate d) := by
  obtain ⟨h1, h2, h3, h4, h5⟩ := h
  unfold nextDate Date.lt
  split
  · dsimp only; omega
  · split <;> (dsimp only; omega)

lemma dateOfDay_valid (n : ℕ) : (dateOfDay n).Valid := by
  induction n with
  | zero => exact epochDate_valid
  | succ k ih =>
    rw [dateOfDay, Function.iterate_succ_apply']
    exact nextDate_valid ih

lemma dateOfDay_succ (n : ℕ) : dateOfDay (n + 1) = nextDate (dateOfDay n) :=
  Function.iterate_succ_apply' nextDate n epochDate

lemma dateOfDay_lt_succ (n : ℕ) :
    Date.lt (dateOfDay n) (dateOfDay (n + 1)) := by
  rw [dateOfDay_succ]
  exact nextDate_lt (dateOfDay_valid n)

lemma date_lt_trans {a b c : Date} (h1 : Date.lt a b) (h2 : Date.lt b c) :
    Date.lt a c := by
  unfold Date.lt at *
  omega

lemma dateOfDay_lt_of_lt {m n : ℕ} (h : m < n) :
    Date.lt (dateOfDay m) (dateOfDay n) := by
  induction n with
  | zero => omega
  | succ k ih =>
    rcases Nat.lt_or_ge m k with hk | hk
    · exact date_lt_trans (ih hk) (dateOfDay_lt_succ k)
    · have : m = k := by omega
      subst this
      exact dateOfDay_lt_succ m

lemma dateOfDay_year_mono {m n : ℕ} (h : m ≤ n) :
    (dateOfDay m).year ≤ (dateOfDay n).year := by
  rcases Nat.lt_or_ge m n with hk | hk
  · have := dateOfDay_lt_of_lt hk
    unfold Date.lt at this
    omega
  · have : m = n := by omega
    subst this
    exact le_refl _

/-! ### `lastNDays` characterisation -/

lemma epochDay_sub (t : ℤ) (k : ℕ) :
    epochDay (t - k * msPerDay) = epochDay t - k := by
  unfold epochDay msPerDay
  have h := Int.add_mul_ediv_right t (-(k : ℤ))
    (show (86400000 : ℤ) ≠ 0 by norm_num)
  have heq : t - (k : ℤ) * 86400000 = t + -(k : ℤ) * 86400000 := by ring
  rw [heq, h]
  ring

lemma lastNDays_length (n : ℕ) (t : ℤ) : (lastNDays n t).length = n := by
  rw [lastNDays, List.length_map, List.length_range]

lemma lastNDays_getElem (n : ℕ) (t : ℤ) (i : ℕ) (hi : i < (lastNDays n t).length) :
    (lastNDays n t)[i] = dateKey (t - i * msPerDay) := by
  simp only [lastNDays, List.getElem_map, List.getElem_range]

lemma dateKey_shift (t : ℤ) (i : ℕ) :
    dateKey (t - i * msPerDay) = (dateOfDay ((epochDay t - i).toNat)).key := by
  rw [dateKey, epochDay_sub]

/-- Strict decrease of the rendered dates along `lastNDays`, for
    instants whose whole window lies between the epoch and the year
    9999. -/
lemma lastNDays_pairwise_gt (n : ℕ) (t : ℤ)
    (hn : (n : ℤ) ≤ epochDay t + 1)
    (hy : (dateOfDay (epochDay t).toNat).year ≤ 9999) :
    List.Pairwise (fun a b : String => b < a) (lastNDays n t) := by
  rw [List.pairwise_iff_getElem]
  intro i j hi hj hij
  rw [lastNDays_length] at hi hj
  rw [lastNDays_getElem n t i (by simpa [lastNDays_length] using hi),
    lastNDays_getElem n t j (by simpa [lastNDays_length] using hj),
    dateKey_shift, dateKey_shift]
  have hD : (0 : ℤ) ≤ epochDay t := by omega
  have hji : (epochDay t - j).toNat < (epochDay t - i).toNat := by omega
  have hiD : (epochDay t - i).toNat ≤ (epochDay t).toNat := by omega
  have hjD : (epochDay t - j).toNat ≤ (epochDay t).toNat := by omega
  exact dateKey_lt_of_date_lt (dateOfDay_valid _) (dateOfDay_valid _)
    (le_trans (dateOfDay_year_mono hjD) hy)
    (le_trans (dateOfDay_year_mono hiD) hy)
    (dateOfDay_lt_of_lt hji)

/-- C3: `lastNDays n t` (all instants modelled from the epoch through
    year 9999, the range in which `toISOString` renders plain
    `YYYY-MM-DD`) has length `n` (`n = 0` giving the empty sequence),
    its first element is `dateKey t`, each successive element is the
    date key of exactly one calendar day earlier (its calendar date is
    the predecessor under the successor-day function), and the
    rendered date strings are strictly decreasing. -/
theorem C3_lastNDays_calendar :
    ∀ (n : ℕ) (t : ℤ),
      (n : ℤ) ≤ epochDay t + 1 →
      (dateOfDay (epochDay t).toNat).year ≤ 9999 →
      (lastNDays n t).length = n ∧
      lastNDays 0 t = [] ∧
      (0 < n → (lastNDays n t).head? = some (dateKey t)) ∧
      (∀ i : ℕ, i + 1 < n →
        (lastNDays n t)[i + 1]? =
          some ((dateOfDay ((epochDay t - (i + 1)).toNat)).key) ∧
        nextDate (dateOfDay ((epochDay t - (i + 1)).toNat))
          = dateOfDay ((epochDay t - i).toNat)) ∧
      List.Pairwise (fun a b : String => b < a) (lastNDays n t) := by
  intro n t hn hy
  refine ⟨lastNDays_length n t, by rw [lastNDays, List.range_zero, List.map_nil],
    ?_, ?_, ?_⟩
  · intro hpos
    have hlen0 : 0 < (lastNDays n t).length := by
      simpa [lastNDays_length] using hpos
    rw [List.head?_eq_getElem?, List.getElem?_eq_getElem hlen0,
      lastNDays_getElem n t 0 hlen0]
    norm_num
  · intro i hi
    have hi' : i + 1 < (lastNDays n t).length := by
      simpa [lastNDays_length] using hi
    constructor
    · rw [List.getElem?_eq_getElem hi', lastNDays_getElem n t (i + 1) hi',
        dateKey_shift]
      push_cast
      rfl
    · have harith : (epochDay t - i).toNat = (epochDay t - (i + 1)).toNat + 1 := by
        omega
      rw [harith, dateOfDay_succ]
  · exact lastNDays_pairwise_gt n t hn hy

/-- C3, witness at `n = 7` and the instant `t = 518400000`
    (1970-01-07, epoch day 6). -/
theorem C3_lastNDays_calendar_witness :
    ((7 : ℕ) : ℤ) ≤ epochDay 518400000 + 1 ∧
    (dateOfDay (epochDay 518400000).toNat).year ≤ 9999 ∧
    ((lastNDays 7 518400000).length = 7 ∧
      lastNDays 0 518400000 = [] ∧
      (0 < 7 → (lastNDays 7 518400000).head? = some (dateKey 518400000)) ∧
      (∀ i : ℕ, i + 1 < 7 →
        (lastNDays 7 518400000)[i + 1]? =
          some ((dateOfDay ((epochDay 518400000 - (i + 1)).toNat)).key) ∧
        nextDate (dateOfDay ((epochDay 518400000 - (i + 1)).toNat))
          = dateOfDay ((epochDay 518400000 - i).toNat)) ∧
      List.Pairwise (fun a b : String => b < a) (lastNDays 7 518400000)) :=
  ⟨by decide, by decide,
    C3_lastNDays_calendar 7 518400000 (by decide) (by decide)⟩

/-! ### Aggregation lemmas -/

lemma foldl_add_eq_sum {α : Type} (f : α → ℤ) :
    ∀ (l : List α) (a : ℤ),
      l.foldl (fun s x => s + f x) a = a + (l.map f).sum := by
  intro l
  induction l with
  | nil => intro a; simp
  | cons x xs ih =>
    intro a
    rw [List.foldl_cons, ih (a + f x), List.map_cons, List.sum_cons]
    ring

lemma sumBy_eq_sum (f : Meal → ℤ) (l : List Meal) :
    sumBy f l = (l.map f).sum := by
  simpa using foldl_add_eq_sum f l 0

lemma sum_filter_or {α : Type} (f : α → ℤ) (p q : α → Bool) :
    ∀ (l : List α), (∀ x ∈ l, ¬(p x = true ∧ q x = true)) →
      ((l.filter (fun x => p x || q x)).map f).sum
        = ((l.filter p).map f).sum + ((l.filter q).map f).sum := by
  intro l
  induction l with
  | nil => intro _; simp
  | cons x xs ih =>
    intro hd
    have hx := hd x (List.mem_cons_self x xs)
    have hxs : ∀ y ∈ xs, ¬(p y = true ∧ q y = true) := fun y hy =>
      hd y (List.mem_cons_of_mem x hy)
    cases hp : p x with
    | true =>
      cases hq : q x with
      | true => exact absurd ⟨hp, hq⟩ hx
      | false =>
        simp [List.filter_cons, hp, hq, ih hxs]
        try ring
    | false =>
      cases hq : q x with
      | true =>
        simp [List.filter_cons, hp, hq, ih hxs]
        try ring
      | false =>
        simp [List.filter_cons, hp, hq, ih hxs]

/-- Summing per-day bucket totals over distinct days equals the total
    over the ledger restricted to meals whose day is in the set: no
    double counting, no omission. -/
lemma days_sum_eq_filter (f : Meal → ℤ) :
    ∀ (days : List String) (meals : List Meal), days.Nodup →
      (days.map (fun d =>
        ((meals.filter (fun m => dateKey m.ts == d)).map f).sum)).sum
        = ((meals.filter
            (fun m => days.contains (dateKey m.ts))).map f).sum := by
  intro days
  induction days with
  | nil => intro meals _; simp [List.filter_false]
  | cons d ds ih =>
    intro meals hnd
    rw [List.nodup_cons] at hnd
    have hsplit : meals.filter (fun m => (d :: ds).contains (dateKey m.ts))
        = meals.filter
            (fun m => (dateKey m.ts == d) || ds.contains (dateKey m.ts)) := by
      apply List.filter_congr
      intro m _
      rw [List.contains_cons]
    rw [List.map_cons, List.sum_cons, ih meals hnd.2, hsplit,
      sum_filter_or f _ _ meals ?_]
    intro m _ hboth
    obtain ⟨h1, h2⟩ := hboth
    have hkey : dateKey m.ts = d := by simpa using h1
    have hmem : dateKey m.ts ∈ ds := by
      have := List.elem_iff.mp h2
      simpa [List.contains] using h2
    exact hnd.1 (hkey ▸ hmem)

/-- C7: the seven day keys of the weekly view are distinct; the
    weekly totals are, component-wise, the sum of the per-day bucket
    totals over those days; and that sum equals the totals of the
    ledger restricted to meals whose day key falls in the window — no
    meal counted twice, none omitted. -/
theorem C7_weekly_totals :
    ∀ (meals : List Meal) (t : ℤ),
      (7 : ℤ) ≤ epochDay t + 1 →
      (dateOfDay (epochDay t).toNat).year ≤ 9999 →
      (lastNDays 7 t).Nodup ∧
      (weeklyTotals meals (lastNDays 7 t)).1
        = ((lastNDays 7 t).map (fun d => (totalsForDay meals d).1)).sum ∧
      (weeklyTotals meals (lastNDays 7 t)).2
        = ((lastNDays 7 t).map (fun d => (totalsForDay meals d).2)).sum ∧
      (weeklyTotals meals (lastNDays 7 t)).1
        = sumBy Meal.calories (meals.filter
            (fun m => (lastNDays 7 t).contains (dateKey m.ts))) ∧
      (weeklyTotals meals (lastNDays 7 t)).2
        = sumBy Meal.protein_g (meals.filter
            (fun m => (lastNDays 7 t).contains (dateKey m.ts))) := by
  intro meals t hn hy
  have hpw := lastNDays_pairwise_gt 7 t hn hy
  have hnd : (lastNDays 7 t).Nodup :=
    hpw.imp (fun h => (ne_of_lt h).symm)
  have hcal : (weeklyTotals meals (lastNDays 7 t)).1
      = ((lastNDays 7 t).map (fun d => (totalsForDay meals d).1)).sum := by
    show ((perDay meals (lastNDays 7 t)).foldl (fun s d => s + d.calories) 0)
        = _
    rw [foldl_add_eq_sum DayTotals.calories, perDay, List.map_map, zero_add]
    rfl
  have hprot : (weeklyTotals meals (lastNDays 7 t)).2
      = ((lastNDays 7 t).map (fun d => (totalsForDay meals d).2)).sum := by
    show ((perDay meals (lastNDays 7 t)).foldl (fun s d => s + d.protein) 0)
        = _
    rw [foldl_add_eq_sum DayTotals.protein, perDay, List.map_map, zero_add]
    rfl
  refine ⟨hnd, hcal, hprot, ?_, ?_⟩
  · rw [hcal, sumBy_eq_sum]
    have := days_sum_eq_filter Meal.calories (lastNDays 7 t) meals hnd
    simpa [totalsForDay, sumBy_eq_sum] using this
  · rw [hprot, sumBy_eq_sum]
    have := days_sum_eq_filter Meal.protein_g (lastNDays 7 t) meals hnd
    simpa [totalsForDay, sumBy_eq_sum] using this

/-- C7, witness: the weekly window anchored at 1970-01-07 over a
    two-meal ledger (one inside the window, one before the epoch
    window's first day would be day `-1`, so both inside). -/
theorem C7_weekly_totals_witness :
    (7 : ℤ) ≤ epochDay 518400000 + 1 ∧
    (dateOfDay (epochDay 518400000).toNat).year ≤ 9999 ∧
    ((lastNDays 7 518400000).Nodup ∧
      (weeklyTotals [⟨"a", 0, "A", 650, 40, none⟩,
        ⟨"b", 518400000, "B", 300, 10, none⟩] (lastNDays 7 518400000)).1
        = ((lastNDays 7 518400000).map
            (fun d => (totalsForDay [⟨"a", 0, "A", 650, 40, none⟩,
              ⟨"b", 518400000, "B", 300, 10, none⟩] d).1)).sum ∧
      (weeklyTotals [⟨"a", 0, "A", 650, 40, none⟩,
        ⟨"b", 518400000, "B", 300, 10, none⟩] (lastNDays 7 518400000)).2
        = ((lastNDays 7 518400000).map
            (fun d => (totalsForDay [⟨"a", 0, "A", 650, 40, none⟩,
              ⟨"b", 518400000, "B", 300, 10, none⟩] d).2)).sum ∧
      (weeklyTotals [⟨"a", 0, "A", 650, 40, none⟩,
        ⟨"b", 518400000, "B", 300, 10, none⟩] (lastNDays 7 518400000)).1
        = sumBy Meal.calories ([⟨"a", 0, "A", 650, 40, none⟩,
            ⟨"b", 518400000, "B", 300, 10, none⟩].filter
            (fun m => (lastNDays 7 518400000).contains (dateKey m.ts))) ∧
      (weeklyTotals [⟨"a", 0, "A", 650, 40, none⟩,
        ⟨"b", 518400000, "B", 300, 10, none⟩] (lastNDays 7 518400000)).2
        = sumBy Meal.protein_g ([⟨"a", 0, "A", 650, 40, none⟩,
            ⟨"b", 518400000, "B", 300, 10, none⟩].filter
            (fun m => (lastNDays 7 518400000).contains (dateKey m.ts)))) :=
  ⟨by decide, by decide,
    C7_weekly_totals [⟨"a", 0, "A", 650, 40, none⟩,
      ⟨"b", 518400000, "B", 300, 10, none⟩] 518400000 (by decide) (by decide)⟩

/-! ### Behaviour of the fence strippers -/

lemma stripJsonF_nil (fuel : ℕ) : stripFencesJsonF fuel [] = [] := by
  cases fuel <;> rfl

lemma stripAllF_nil (fuel : ℕ) : stripFencesAllF fuel [] = [] := by
  cases fuel <;> rfl

/-- Scanning past one non-backquote character. -/
lemma stripJsonF_cons (fuel : ℕ) (c : Char) (rest : List Char)
    (hc : c ≠ backquote) :
    stripFencesJsonF (fuel + 1) (c :: rest)
      = c :: stripFencesJsonF fuel rest := by
  have hbeq : (c == backquote) = false := by simpa using hc
  rcases rest with _ | ⟨x1, rest⟩
  · rfl
  rcases rest with _ | ⟨x2, rest⟩
  · rfl
  rcases rest with _ | ⟨x3, rest⟩
  · rfl
  rcases rest with _ | ⟨x4, rest⟩
  · rfl
  rcases rest with _ | ⟨x5, rest⟩
  · rfl
  rcases rest with _ | ⟨x6, rest⟩
  · rfl
  simp [stripFencesJsonF, hbeq]

lemma stripAllF_cons (fuel : ℕ) (c : Char) (rest : List Char)
    (hc : c ≠ backquote) :
    stripFencesAllF (fuel + 1) (c :: rest)
      = c :: stripFencesAllF fuel rest := by
  have hbeq : (c == backquote) = false := by simpa using hc
  rcases rest with _ | ⟨x1, rest⟩
  · rfl
  rcases rest with _ | ⟨x2, rest⟩
  · rfl
  simp [stripFencesAllF, hbeq]

lemma stripJsonF_id (fuel : ℕ) :
    ∀ l : List Char, (∀ c ∈ l, c ≠ backquote) →
      stripFencesJsonF fuel l = l := by
  induction fuel with
  | zero => intro l _; rfl
  | succ f ih =>
    intro l hl
    rcases l with _ | ⟨c, rest⟩
    · rfl
    · rw [stripJsonF_cons f c rest (hl c (List.mem_cons_self c rest))]
      rw [ih rest (fun x hx => hl x (List.mem_cons_of_mem c hx))]

lemma stripAllF_id (fuel : ℕ) :
    ∀ l : List Char, (∀ c ∈ l, c ≠ backquote) →
      stripFencesAllF fuel l = l := by
  induction fuel with
  | zero => intro l _; rfl
  | succ f ih =>
    intro l hl
    rcases l with _ | ⟨c, rest⟩
    · rfl
    · rw [stripAllF_cons f c rest (hl c (List.mem_cons_self c rest))]
      rw [ih rest (fun x hx => hl x (List.mem_cons_of_mem c hx))]

/-- The first scan leaves a bare closing fence alone (the
    `/```json\s*/` pattern needs seven characters). -/
lemma stripJsonF_bqs (fuel : ℕ) :
    stripFencesJsonF fuel [backquote]
      = [backquote] ∧
    stripFencesJsonF fuel [backquote, backquote]
      = [backquote, backquote] ∧
    stripFencesJsonF fuel [backquote, backquote, backquote]
      = [backquote, backquote, backquote] := by
  induction fuel with
  | zero => exact ⟨rfl, rfl, rfl⟩
  | succ f ih =>
    refine ⟨?_, ?_, ?_⟩
    · show backquote :: stripFencesJsonF f [] = _
      rw [stripJsonF_nil]
    · show backquote :: stripFencesJsonF f [backquote] = _
      rw [ih.1]
    · show backquote :: stripFencesJsonF f [backquote, backquote] = _
      rw [ih.2.1]

lemma stripJsonF_append_bq3 (fuel : ℕ) :
    ∀ x : List Char, (∀ c ∈ x, c ≠ backquote) →
      stripFencesJsonF fuel (x ++ [backquote, backquote, backquote])
        = x ++ [backquote, backquote, backquote] := by
  induction fuel with
  | zero => intro x _; rfl
  | succ f ih =>
    intro x hx
    rcases x with _ | ⟨c, rest⟩
    · exact (stripJsonF_bqs (f + 1)).2.2
    · rw [List.cons_append,
        stripJsonF_cons f c _ (hx c (List.mem_cons_self c rest)),
        ih rest (fun y hy => hx y (List.mem_cons_of_mem c hy))]

/-- The second scan removes a bare closing fence. -/
lemma stripAllF_bq3 (fuel : ℕ) :
    stripFencesAllF (fuel + 1) [backquote, backquote, backquote] = [] := by
  show stripFencesAllF fuel (List.dropWhile isJsWs []) = []
  rw [List.dropWhile_nil, stripAllF_nil]

lemma stripAllF_append_bq3 (fuel : ℕ) :
    ∀ x : List Char, (∀ c ∈ x, c ≠ backquote) → x.length < fuel →
      stripFencesAllF fuel (x ++ [backquote, backquote, backquote]) = x := by
  induction fuel with
  | zero => intro x _ h; omega
  | succ f ih =>
    intro x hx hlen
    rcases x with _ | ⟨c, rest⟩
    · exact stripAllF_bq3 f
    · rw [List.cons_append,
        stripAllF_cons f c _ (hx c (List.mem_cons_self c rest)),
        ih rest (fun y hy => hx y (List.mem_cons_of_mem c hy))
          (by simpa using Nat.lt_of_succ_lt_succ hlen)]

/-- Dropping leading white space stops at a list whose head is not
    white space. -/
lemma dropWhile_append_of_head {p : Char → Bool} {v : List Char} {a : Char}
    (u : List Char) (hv : v.head? = some a) (ha : p a = false) :
    List.dropWhile p (u ++ v) = u.dropWhile p ++ v := by
  rcases v with _ | ⟨b, vt⟩
  · simp at hv
  · have hb : b = a := by simpa using hv
    subst hb
    rw [List.dropWhile_append]
    split
    · next hemp =>
      rw [List.isEmpty_iff] at hemp
      rw [hemp, List.nil_append, List.dropWhile_cons_of_neg (by simp [ha])]
    · rfl

/-! ### Trimming around an embedded JSON object -/

/-- `trim` around a brace-delimited core only trims the prose on each
    side. -/
lemma jsTrimL_embed (pre s suf : List Char)
    (hs1 : s.head? = some lbrace) (hs2 : s.getLast? = some rbrace) :
    jsTrimL (pre ++ s ++ suf)
      = pre.dropWhile isJsWs ++ s
          ++ (suf.reverse.dropWhile isJsWs).reverse := by
  have hsne : s ≠ [] := by
    intro h
    rw [h] at hs1
    simp at hs1
  have hlb : isJsWs lbrace = false := by decide
  have hrb : isJsWs rbrace = false := by decide
  have h1 : (pre ++ s ++ suf).dropWhile isJsWs
      = pre.dropWhile isJsWs ++ (s ++ suf) := by
    rw [List.append_assoc]
    exact dropWhile_append_of_head pre
      (by rw [List.head?_append_of_ne_nil s hsne, hs1]) hlb
  have hsrev : s.reverse.head? = some rbrace := by
    rw [← List.getLast?_eq_head?_reverse, hs2]
  have hsrevne : s.reverse ≠ [] := by
    simpa using hsne
  rw [jsTrimL, h1, List.reverse_append, List.reverse_append,
    List.append_assoc]
  rw [dropWhile_append_of_head suf.reverse
    (by rw [List.head?_append_of_ne_nil s.reverse hsrevne, hsrev]) hrb]
  rw [List.reverse_append, List.reverse_append, List.reverse_reverse,
    List.reverse_reverse]

/-- The brace-window computation: with no `\x7b` in the prefix and no
    `\x7d` in the suffix, `indexOf`/`lastIndexOf` bracket exactly the
    embedded object and the slice returns it. -/
lemma slice_extract (P s R : List Char)
    (hPl : ∀ c ∈ P, (c == lbrace) = false)
    (hRr : ∀ c ∈ R, (c == rbrace) = false)
    (hs1 : s.head? = some lbrace) (hs2 : s.getLast? = some rbrace)
    (hslen : 2 ≤ s.length) :
    (P ++ s ++ R).findIdx? (· == lbrace) = some P.length ∧
    lastIdxOf rbrace (P ++ s ++ R) = some (P.length + s.length - 1) ∧
    (((P ++ s ++ R).take (P.length + s.length - 1 + 1)).drop P.length) = s := by
  have hsne : s ≠ [] := by
    intro h
    rw [h] at hs1
    simp at hs1
  have hsrev : s.reverse.head? = some rbrace := by
    rw [← List.getLast?_eq_head?_reverse, hs2]
  have hfind : (P ++ s ++ R).findIdx? (· == lbrace) = some P.length := by
    rw [List.append_assoc, List.findIdx?_append,
      List.findIdx?_eq_none_iff.mpr hPl]
    rcases hsr : s with _ | ⟨a, st⟩
    · exact absurd hsr hsne
    · have ha : a = lbrace := by
        rw [hsr] at hs1
        simpa using hs1
      subst ha
      rw [List.cons_append, List.findIdx?_cons]
      simp
  have hlast : lastIdxOf rbrace (P ++ s ++ R)
      = some (P.length + s.length - 1) := by
    rw [lastIdxOf, List.reverse_append, List.reverse_append,
      List.append_assoc, List.findIdx?_append]
    have hRrev : ∀ c ∈ R.reverse, (c == rbrace) = false := by
      intro c hc
      exact hRr c (List.mem_reverse.mp hc)
    rw [List.findIdx?_eq_none_iff.mpr hRrev]
    rcases hsr : s.reverse with _ | ⟨z, zt⟩
    · rw [List.reverse_eq_nil_iff] at hsr
      exact absurd hsr hsne
    · have hz : z = rbrace := by
        rw [hsr] at hsrev
        simpa using hsrev
      subst hz
      rw [List.cons_append, List.findIdx?_cons]
      have hlens : (P ++ (s ++ R)).length = P.length + s.length + R.length := by
        simp [List.length_append]
        omega
      simp only [beq_self_eq_true, if_true, Option.map_some, Option.map_some',
        Option.none_or, List.length_reverse]
      show some ((P ++ (s ++ R)).length - 1 - (0 + R.length)) = _
      rw [hlens]
      congr 1
      omega
  refine ⟨hfind, hlast, ?_⟩
  have hstop : P.length + s.length - 1 + 1 = (P ++ s).length := by
    rw [List.length_append]
    have : 1 ≤ s.length := by omega
    omega
  rw [hstop, List.append_assoc, ← List.append_assoc, List.take_left]
  exact List.drop_left P s

/-- With the fences and prose removed, the brace handling of
    `extractJson` returns exactly the embedded object. -/
lemma extract_branches (P s R : List Char)
    (hP : ∀ c ∈ P, c ≠ lbrace ∧ c ≠ rbrace)
    (hR : ∀ c ∈ R, c ≠ lbrace ∧ c ≠ rbrace)
    (hs1 : s.head? = some lbrace) (hs2 : s.getLast? = some rbrace) :
    (if (P ++ s ++ R).head? == some lbrace
          ∧ (P ++ s ++ R).getLast? == some rbrace then
      P ++ s ++ R
    else
      match (P ++ s ++ R).findIdx? (· == lbrace),
          lastIdxOf rbrace (P ++ s ++ R) with
      | some start, some stop =>
        if start < stop then ((P ++ s ++ R).take (stop + 1)).drop start
        else P ++ s ++ R
      | _, _ => P ++ s ++ R) = s := by
  have hsne : s ≠ [] := by
    intro h
    rw [h] at hs1
    simp at hs1
  have hslen : 2 ≤ s.length := by
    rcases s with _ | ⟨a, st⟩
    · exact absurd rfl hsne
    · rcases st with _ | ⟨b, st2⟩
      · have ha : a = lbrace := by simpa using hs1
        have ha2 : a = rbrace := by simpa using hs2
        subst ha
        exact absurd ha2 (by decide)
      · simp
  by_cases hcond : ((P ++ s ++ R).head? == some lbrace) = true
      ∧ ((P ++ s ++ R).getLast? == some rbrace) = true
  · rw [if_pos hcond]
    have hPe : P = [] := by
      rcases hPs : P with _ | ⟨q, Qt⟩
      · rfl
      · obtain ⟨h1, -⟩ := hcond
        rw [hPs, List.cons_append, List.cons_append, List.head?_cons] at h1
        have hq : q = lbrace := by simpa using h1
        exact absurd hq ((hP q (by rw [hPs]; exact List.mem_cons_self q Qt)).1)
    have hRe : R = [] := by
      rcases hRs : R with _ | ⟨r, Rt⟩
      · rfl
      · obtain ⟨-, h2⟩ := hcond
        rw [List.getLast?_append, hRs] at h2
        have hRne : (r :: Rt : List Char) ≠ [] := List.cons_ne_nil r Rt
        rw [List.getLast?_eq_getLast _ hRne, Option.or_some] at h2
        have hrl : (r :: Rt).getLast hRne = rbrace := by simpa using h2
        have hmem : (r :: Rt).getLast hRne ∈ (r :: Rt) := List.getLast_mem hRne
        rw [hrl] at hmem
        have := (hR rbrace (by rw [hRs]; exact hmem)).2
        exact absurd rfl this
    rw [hPe, hRe, List.nil_append, List.append_nil]
  · rw [if_neg hcond]
    obtain ⟨hf, hl, hslice⟩ := slice_extract P s R
      (fun c hc => by simpa using (hP c hc).1)
      (fun c hc => by simpa using (hR c hc).2) hs1 hs2 hslen
    rw [hf, hl]
    have hlt : P.length < P.length + s.length - 1 := by omega
    show (if P.length < P.length + s.length - 1 then
        ((P ++ s ++ R).take (P.length + s.length - 1 + 1)).drop P.length
      else P ++ s ++ R) = s
    rw [if_pos hlt]
    exact hslice

/-- C9: before declaring the output unparsable, `extractJson` strips
    markdown code fences and, when the remaining text is not itself
    brace-delimited, slices from the first `\x7b` to the last `\x7d`:
    (1) an object embedded in brace-free, backquote-free prose is
    extracted exactly; (2) output wrapped in ```json fences is
    extracted exactly (up to `trim`); and (3) the handler answers
    `500 / Model did not return JSON` exactly when `JSON.parse` still
    fails on the extracted text. -/
theorem C9_extract_json :
    (∀ pre s suf : List Char,
      (∀ c ∈ pre, c ≠ lbrace ∧ c ≠ rbrace ∧ c ≠ backquote) →
      (∀ c ∈ suf, c ≠ lbrace ∧ c ≠ rbrace ∧ c ≠ backquote) →
      (∀ c ∈ s, c ≠ backquote) →
      s.head? = some lbrace → s.getLast? = some rbrace →
      extractJsonL (pre ++ s ++ suf) = s) ∧
    (∀ s : List Char,
      (∀ c ∈ s, c ≠ backquote) →
      (jsTrimL s).head? = some lbrace →
      (jsTrimL s).getLast? = some rbrace →
      extractJsonL ("```json\n".data ++ (s ++ "```".data)) = jsTrimL s) ∧
    (∀ raw : String,
      ((estimateHandler (some "uploads/tmp") (.ok ()) (.ok (some raw))).1.status
          = 500 ∧
        (estimateHandler (some "uploads/tmp") (.ok ()) (.ok (some raw))).1.body
          = modelNotJsonBody (jsTrim raw)) ↔
      isErr (Json.parse (extractJson (jsTrim raw))) = true) := by
  refine ⟨?_, ?_, ?_⟩
  · -- (1) prose-embedded object
    intro pre s suf hpre hsuf hs hh hl
    have hnb : ∀ c ∈ pre ++ s ++ suf, c ≠ backquote := by
      intro c hc
      rcases List.mem_append.mp hc with hc1 | hc2
      · rcases List.mem_append.mp hc1 with h | h
        · exact (hpre c h).2.2
        · exact hs c h
      · exact (hsuf c hc2).2.2
    have e1 : stripFencesJson (pre ++ s ++ suf) = pre ++ s ++ suf :=
      stripJsonF_id _ _ hnb
    have e2 : stripFencesAll (pre ++ s ++ suf) = pre ++ s ++ suf :=
      stripAllF_id _ _ hnb
    simp only [extractJsonL, e1, e2, jsTrimL_embed pre s suf hh hl]
    exact extract_branches _ s _
      (fun c hc => by
        have : c ∈ pre := (List.dropWhile_sublist isJsWs).subset hc
        exact ⟨(hpre c this).1, (hpre c this).2.1⟩)
      (fun c hc => by
        have h1 : c ∈ suf.reverse.dropWhile isJsWs := List.mem_reverse.mp hc
        have h2 : c ∈ suf.reverse := (List.dropWhile_sublist isJsWs).subset h1
        have : c ∈ suf := List.mem_reverse.mp h2
        exact ⟨(hsuf c this).1, (hsuf c this).2.1⟩)
      hh hl
  · -- (2) fenced object
    intro s hs hh hl
    have hc3 : "```".data = [backquote, backquote, backquote] := rfl
    have hlen : ("```json\n".data ++ (s ++ "```".data)).length
        = s.length + 10 + 1 := by
      simp
    have step1 : stripFencesJson ("```json\n".data ++ (s ++ "```".data))
        = stripFencesJsonF (s.length + 10)
            ((s ++ "```".data).dropWhile isJsWs) := by
      rw [stripFencesJson, hlen]
      rfl
    have hclose : List.dropWhile isJsWs ("```".data) = "```".data := rfl
    have step2 : (s ++ "```".data).dropWhile isJsWs
        = s.dropWhile isJsWs ++ "```".data := by
      rw [List.dropWhile_append]
      split
      · next hemp =>
        rw [List.isEmpty_iff] at hemp
        rw [hemp, List.nil_append, hclose]
      · rfl
    have hs1nb : ∀ c ∈ s.dropWhile isJsWs, c ≠ backquote := fun c hc =>
      hs c ((List.dropWhile_sublist isJsWs).subset hc)
    have step3 : stripFencesJsonF (s.length + 10)
        (s.dropWhile isJsWs ++ "```".data)
        = s.dropWhile isJsWs ++ "```".data := by
      rw [hc3]
      exact stripJsonF_append_bq3 _ _ hs1nb
    have step4 : stripFencesAll (s.dropWhile isJsWs ++ "```".data)
        = s.dropWhile isJsWs := by
      rw [stripFencesAll, hc3]
      refine stripAllF_append_bq3 _ _ hs1nb ?_
      simp
    have step5 : jsTrimL (s.dropWhile isJsWs) = jsTrimL s := by
      rw [jsTrimL, jsTrimL, List.dropWhile_idempotent]
    simp only [extractJsonL, step1, step2, step3, step4, step5]
    rw [if_pos]
    constructor
    · rw [hh]
      simp
    · rw [hl]
      simp
  · -- (3) the 500 answer appears exactly on extraction-parse failure
    intro raw
    have hraw : rawTextOf (some raw) = jsTrim raw := rfl
    rcases hparse : Json.parse (extractJson (jsTrim raw)) with e | parsed
    · constructor
      · intro _
        simp [hparse, isErr]
      · intro _
        constructor
        · show (estimateHandler (some "uploads/tmp") (.ok ())
            (.ok (some raw))).1.status = 500
          simp [estimateHandler, hraw, hparse]
        · simp [estimateHandler, hraw, hparse]
    · constructor
      · rintro ⟨hst, hbody⟩
        rcases hout : buildOut parsed with e | out
        · exact absurd (by simpa [estimateHandler, hraw, hparse, hout]
              using hbody)
            (fun h => serverError_ne_mnj e (jsTrim raw) h)
        · have h200 : (estimateHandler (some "uploads/tmp") (.ok ())
              (.ok (some raw))).1.status = 200 := by
            simp [estimateHandler, hraw, hparse, hout]
          rw [h200] at hst
          exact absurd hst (by decide)
      · intro herr
        simp [isErr] at herr

/-- C9, witness: a brace-delimited object inside backquote-free prose
    is extracted exactly. -/
theorem C9_extract_json_witness :
    (∀ c ∈ "Sure! The result is ".data,
      c ≠ lbrace ∧ c ≠ rbrace ∧ c ≠ backquote) ∧
    (∀ c ∈ " hope that helps.".data,
      c ≠ lbrace ∧ c ≠ rbrace ∧ c ≠ backquote) ∧
    (∀ c ∈ "\x7b\"calories\": 310\x7d".data, c ≠ backquote) ∧
    "\x7b\"calories\": 310\x7d".data.head? = some lbrace ∧
    "\x7b\"calories\": 310\x7d".data.getLast? = some rbrace ∧
    extractJsonL ("Sure! The result is ".data
        ++ "\x7b\"calories\": 310\x7d".data ++ " hope that helps.".data)
      = "\x7b\"calories\": 310\x7d".data :=
  ⟨by decide, by decide, by decide, by decide, by decide,
    C9_extract_json.1 "Sure! The result is ".data
      "\x7b\"calories\": 310\x7d".data " hope that helps.".data
      (by decide) (by decide) (by decide) (by decide) (by decide)⟩

end MacroCam
